import Mathlib

/-!
# Verification of the neomacs terminal session engine

Shallow embedding of `src/rust/neomacs-display/src/terminal/`
(`colors.rs`, `content.rs`, `view.rs`) together with proofs of the
specification claims about it.

Conventions of the embedding:
* Rust `usize`/`u32`/`u8` become `Nat`; where wrap-around of a machine
  integer matters (the `u32` session-id counter, the `usize as i32`
  grid-line cast) the reduction modulo `2^32` is written explicitly.
* `f32` color channels become `ℚ` (the palette arithmetic is exact).
* Rust `String` values become `List Char`.
* Fallible operations return `Option`.
* The VT engine (`alacritty_terminal::Term`) is external to the
  repository; it is modelled as an abstract grid state `TermM` exposing
  exactly what the code under verification reads from it: dimensions, an
  indexable cell grid (indexed by an `i32` line, as in
  `alacritty_terminal::index::Line`), the cursor position and the
  cursor-visibility mode flag.
-/

namespace Neomacs

/-! ## Core color type

`crate::core::types::Color` is not among the provided sources; its shape
(`r g b a : f32` fields, `WHITE`/`BLACK` constants) is modelled from its
uses in `colors.rs` and `content.rs`.  Channels are `ℚ`. -/

structure Color where
  r : ℚ
  g : ℚ
  b : ℚ
  a : ℚ
deriving DecidableEq

/-- Modelled from the spec: `Color::BLACK` (opaque black), from
`core/types.rs` which is not among the provided sources. -/
def Color.BLACK : Color := ⟨0, 0, 0, 1⟩

/-- Modelled from the spec: `Color::WHITE` (opaque white), from
`core/types.rs` which is not among the provided sources. -/
def Color.WHITE : Color := ⟨1, 1, 1, 1⟩

/-! ## ANSI color model (`alacritty_terminal::vte::ansi`) -/

/-- `alacritty_terminal::vte::ansi::NamedColor`.  The sixteen palette
names plus the three special names matched in `named_to_color`; every
other variant of the Rust enum falls into the wildcard arm and is
collapsed into `otherNamed`. -/
inductive NamedColor where
  | Foreground | Background | Cursor
  | Black | Red | Green | Yellow | Blue | Magenta | Cyan | White
  | BrightBlack | BrightRed | BrightGreen | BrightYellow
  | BrightBlue | BrightMagenta | BrightCyan | BrightWhite
  | otherNamed
deriving DecidableEq

/-- `alacritty_terminal::vte::ansi::Rgb` (three `u8` channels). -/
structure Rgb where
  r : Nat
  g : Nat
  b : Nat
deriving DecidableEq

/-- `alacritty_terminal::vte::ansi::Color`. The `Indexed` payload is a
`u8`, modelled as a `Nat` (callers only produce values `< 256`). -/
inductive AnsiColor where
  | Named (named : NamedColor)
  | Spec (rgb : Rgb)
  | Indexed (idx : Nat)
deriving DecidableEq

/-! ## The 256-color palette (`colors.rs`) -/

/-- The sixteen named-color triples of `COLOR_256` (colors.rs lines
13-30), in order. -/
def named16 : List (Nat × Nat × Nat) :=
  [(0, 0, 0), (205, 0, 0), (0, 205, 0), (205, 205, 0),
   (0, 0, 238), (205, 0, 205), (0, 205, 205), (229, 229, 229),
   (127, 127, 127), (255, 0, 0), (0, 255, 0), (255, 255, 0),
   (92, 92, 255), (255, 0, 255), (0, 255, 255), (255, 255, 255)]

/-- Channel-by-255 normalization of a `u8` triple into a `Color`. -/
def rgbColor (r g b : Nat) : Color :=
  ⟨(r : ℚ) / 255, (g : ℚ) / 255, (b : ℚ) / 255, 1⟩

/-- The `to_val` closure of the 6×6×6 cube initialization (colors.rs
lines 45-47): channel digit `0` maps to `0`, digit `c > 0` maps to
`(55 + 40*c)/255`. -/
def to_val (c : Nat) : ℚ :=
  if c = 0 then 0 else ((55 + 40 * c : Nat) : ℚ) / 255

/-- The static `COLOR_256` palette array, as the function sending an
index to the entry the initialization loops of colors.rs leave there:
indices 0-15 the named table, 16-231 the 6×6×6 cube (digits
`(i/36) % 6`, `(i/6) % 6`, `i % 6` of `i = idx - 16`), 232-255 the
grayscale ramp `(8 + 10*step)/255`.  (The loops write every one of the
256 slots, so the `Color::BLACK` fill never survives; indices ≥ 256 do
not occur for a `u8`.) -/
def COLOR_256 (idx : Nat) : Color :=
  if idx < 16 then
    match named16.get? idx with
    | some (r, g, b) => rgbColor r g b
    | none => Color.BLACK
  else if idx < 232 then
    let i := idx - 16
    ⟨to_val ((i / 36) % 6), to_val ((i / 6) % 6), to_val (i % 6), 1⟩
  else if idx < 256 then
    let i := idx - 232
    let v : ℚ := ((8 + 10 * i : Nat) : ℚ) / 255
    ⟨v, v, v, 1⟩
  else Color.BLACK

/-- `named_to_color` (colors.rs lines 89-112). -/
def named_to_color (named : NamedColor) (default_fg default_bg : Color) :
    Color :=
  match named with
  | .Foreground => default_fg
  | .Background => default_bg
  | .Cursor => default_fg
  | .Black => COLOR_256 0
  | .Red => COLOR_256 1
  | .Green => COLOR_256 2
  | .Yellow => COLOR_256 3
  | .Blue => COLOR_256 4
  | .Magenta => COLOR_256 5
  | .Cyan => COLOR_256 6
  | .White => COLOR_256 7
  | .BrightBlack => COLOR_256 8
  | .BrightRed => COLOR_256 9
  | .BrightGreen => COLOR_256 10
  | .BrightYellow => COLOR_256 11
  | .BrightBlue => COLOR_256 12
  | .BrightMagenta => COLOR_256 13
  | .BrightCyan => COLOR_256 14
  | .BrightWhite => COLOR_256 15
  | .otherNamed => default_fg

/-- `ansi_to_color` (colors.rs lines 69-86). -/
def ansi_to_color (color : AnsiColor) (default_fg default_bg : Color) :
    Color :=
  match color with
  | .Named named => named_to_color named default_fg default_bg
  | .Spec rgb => rgbColor rgb.r rgb.g rgb.b
  | .Indexed idx => COLOR_256 idx

/-! ## Machine-integer casts

`content.rs` builds `Line(row as i32)` from a `usize` row and compares
it against `grid.screen_lines() as i32`; both casts truncate to the low
32 bits and reinterpret the sign bit. -/

/-- Rust `usize as i32` (truncating cast, 64-bit `usize`). -/
def toI32 (n : Nat) : Int :=
  let m : Nat := n % 2 ^ 32
  if m < 2 ^ 31 then (m : Int) else (m : Int) - 2 ^ 32

/-- Rust `i32 as usize` (sign-extend, then reinterpret; 64-bit `usize`),
used for the cursor row in `TerminalContent::from_term`. -/
def i32_as_usize (i : Int) : Nat := (i % 2 ^ 64).toNat

/-! ## The VT engine grid (external boundary) -/

/-- The cell flags the extraction code inspects
(`alacritty_terminal::term::cell::Flags`): the
`WIDE_CHAR_SPACER` bit plus the remaining bits, which are copied into
snapshots untouched. -/
structure CellFlagsM where
  wideCharSpacer : Bool
  otherBits : Nat
deriving DecidableEq

/-- A grid cell (`alacritty_terminal::term::cell::Cell`), restricted to
the fields the extraction code reads: character, colors, flags. -/
structure CellM where
  c : Char
  fg : AnsiColor
  bg : AnsiColor
  flags : CellFlagsM
deriving DecidableEq

/-- The VT engine state (`alacritty_terminal::Term`), restricted to what
the code under verification reads: grid dimensions, the indexable cell
grid (indexed by an `i32` line as in `alacritty_terminal::index::Line`;
lines `0..rows` are the visible grid, anything else is outside it), the
cursor position (`grid.cursor.point`, whose line is an `i32`) and the
`SHOW_CURSOR` mode bit. -/
structure TermM where
  cols : Nat
  rows : Nat
  cell : Int → Nat → CellM
  cursor_line : Int
  cursor_col : Nat
  show_cursor : Bool

/-- Guarded grid access: `some` exactly when the requested point lies in
the visible `rows × cols` rectangle of the grid (the only region the
spec's data model gives the grid), `none` for any other point.  Used by
the `_checked` extraction functions to witness that no out-of-bounds
access occurs. -/
def cellAt (t : TermM) (line : Int) (col : Nat) : Option CellM :=
  if 0 ≤ line ∧ line < (t.rows : Int) ∧ col < t.cols then
    some (t.cell line col)
  else none

/-! ## Content snapshots (`content.rs`) -/

/-- `RenderCell` (content.rs lines 14-28). -/
structure RenderCell where
  col : Nat
  row : Nat
  c : Char
  fg : Color
  bg : Color
  flags : CellFlagsM
deriving DecidableEq

/-- `RenderCursor` (content.rs lines 31-36). -/
structure RenderCursor where
  col : Nat
  row : Nat
  visible : Bool
deriving DecidableEq

/-- `TerminalContent` (content.rs lines 39-52). -/
structure TerminalContent where
  cells : List RenderCell
  cols : Nat
  rows : Nat
  cursor : RenderCursor
  default_bg : Color
  default_fg : Color

/-- `TerminalContent::from_term` (content.rs lines 56-109): row-major
iteration over all `rows × cols` cells, skipping `WIDE_CHAR_SPACER`
cells, resolving colors against `default_fg = WHITE`,
`default_bg = BLACK`. -/
def TerminalContent.from_term (t : TermM) : TerminalContent :=
  let default_fg := Color.WHITE
  let default_bg := Color.BLACK
  let cells := (List.range t.rows).flatMap fun row_idx =>
    (List.range t.cols).filterMap fun col_idx =>
      let cell := t.cell (toI32 row_idx) col_idx
      if cell.flags.wideCharSpacer then none
      else
        some { col := col_idx
               row := row_idx
               c := cell.c
               fg := ansi_to_color cell.fg default_fg default_bg
               bg := ansi_to_color cell.bg default_fg default_bg
               flags := cell.flags }
  { cells := cells
    cols := t.cols
    rows := t.rows
    cursor := { col := t.cursor_col
                row := i32_as_usize t.cursor_line
                visible := t.show_cursor }
    default_bg := default_bg
    default_fg := default_fg }

/-! ## Text extraction (`extract_text`, content.rs lines 113-148) -/

/-- Rust `char::is_whitespace` (the Unicode `White_Space` property). -/
def isRustWhitespace (ch : Char) : Bool :=
  List.contains
    ['\x09', '\x0a', '\x0b', '\x0c', '\x0d', ' ',
     '\u0085', '\u00A0', '\u1680',
     '\u2000', '\u2001', '\u2002', '\u2003', '\u2004', '\u2005',
     '\u2006', '\u2007', '\u2008', '\u2009', '\u200A',
     '\u2028', '\u2029', '\u202F', '\u205F', '\u3000'] ch

/-- Rust `str::trim_end`: remove trailing whitespace. -/
def trimEnd (s : List Char) : List Char :=
  (s.reverse.dropWhile isRustWhitespace).reverse

/-- The per-item `\r`-stripping of Rust `str::lines`. -/
def stripCr (l : List Char) : List Char :=
  if l.getLast? = some '\x0d' then l.dropLast else l

/-- The final-empty-segment dropping of Rust `str::split_terminator`. -/
def dropFinalEmpty (ls : List (List Char)) : List (List Char) :=
  if ls.getLast? = some [] then ls.dropLast else ls

/-- Rust `str::lines`: split at `'\n'`, the final line ending optional,
a trailing `'\r'` stripped from each line. -/
def rustLines (s : List Char) : List (List Char) :=
  (dropFinalEmpty (s.splitOn '\x0a')).map stripCr

/-- The rows iterated by `for row in start_row..=end_row` (empty when
`end_row < start_row`). -/
def rowListIdx (start_row end_row : Nat) : List Nat :=
  List.range' start_row (end_row + 1 - start_row)

/-- `col_start`/`col_end` for one row of the region (content.rs lines
126-127; `col_end` uses `num_cols.saturating_sub(1)`). -/
def colBounds (num_cols start_row start_col end_row end_col row : Nat) :
    Nat × Nat :=
  (if row = start_row then start_col else 0,
   if row = end_row then end_col else num_cols - 1)

/-- The columns iterated by `for col in col_start..=col_end`. -/
def colListIdx (num_cols start_row start_col end_row end_col row : Nat) :
    List Nat :=
  let (cs, ce) := colBounds num_cols start_row start_col end_row end_col row
  List.range' cs (ce + 1 - cs)

/-- The bounds check of content.rs line 131:
`line.0 < grid.screen_lines() as i32 && col < num_cols`. -/
def textGuard (t : TermM) (row col : Nat) : Prop :=
  toI32 row < toI32 t.rows ∧ col < t.cols

instance (t : TermM) (row col : Nat) : Decidable (textGuard t row col) :=
  inferInstanceAs (Decidable (_ ∧ _))

/-- The characters one row of the region pushes into `text` (the inner
loop of `extract_text`): a cell contributes its character when the
bounds check passes and the cell is not a wide-char spacer. -/
def rowChars (t : TermM) (sr sc er ec row : Nat) : List Char :=
  (colListIdx t.cols sr sc er ec row).flatMap fun col =>
    if textGuard t row col then
      if (t.cell (toI32 row) col).flags.wideCharSpacer then []
      else [(t.cell (toI32 row) col).c]
    else []

/-- The raw `text` accumulated by the loops of `extract_text` before the
trim pass: each row's characters, a `'\n'` after every row except the
last. -/
def rawText (t : TermM) (sr sc er ec : Nat) : List Char :=
  (rowListIdx sr er).flatMap fun row =>
    rowChars t sr sc er ec row ++ if row < er then ['\x0a'] else []

/-- `extract_text` (content.rs lines 113-148): build the raw text, then
`text.lines().map(trim_end).join("\n")`. -/
def extract_text (t : TermM) (sr sc er ec : Nat) : List Char :=
  List.intercalate ['\x0a'] ((rustLines (rawText t sr sc er ec)).map trimEnd)

/-- `rowChars` with every grid access routed through the guarded
`cellAt`: `none` as soon as the code would index the grid outside the
visible rectangle. -/
def rowCharsChecked (t : TermM) (sr sc er ec row : Nat) :
    Option (List Char) :=
  ((colListIdx t.cols sr sc er ec row).mapM fun col =>
    if textGuard t row col then
      (cellAt t (toI32 row) col).map fun cell =>
        if cell.flags.wideCharSpacer then [] else [cell.c]
    else some []).map List.flatten

/-- `rawText` with guarded grid accesses. -/
def rawTextChecked (t : TermM) (sr sc er ec : Nat) :
    Option (List Char) :=
  ((rowListIdx sr er).mapM fun row =>
    (rowCharsChecked t sr sc er ec row).map
      (· ++ if row < er then ['\x0a'] else [])).map List.flatten

/-- `extract_text` with guarded grid accesses: `some` exactly when no
grid access falls outside the visible rectangle. -/
def extract_text_checked (t : TermM) (sr sc er ec : Nat) :
    Option (List Char) :=
  (rawTextChecked t sr sc er ec).map fun raw =>
    List.intercalate ['\x0a'] ((rustLines raw).map trimEnd)

/-! ## Event proxy (`NeomacsEventProxy`, view.rs lines 57-97)

The proxy's only state is the `AtomicBool` wakeup flag, modelled as a
`Bool` threaded explicitly. -/

/-- `TerminalId` (mod.rs line 14): `pub type TerminalId = u32`. -/
abbrev TerminalId := Nat

/-- `TerminalMode` (mod.rs lines 18-25). -/
inductive TerminalMode where
  | Window
  | Inline
  | Floating
deriving DecidableEq

/-- `alacritty_terminal::event::Event`, restricted to the variants
matched in `send_event`; every other variant falls into the wildcard
arm and is collapsed into `otherEvent`.  `Wakeup` is the spec's
"ContentChanged" event. -/
inductive TermEvent where
  | Wakeup
  | Title (title : List Char)
  | Bell
  | Exit
  | otherEvent
deriving DecidableEq

/-- `NeomacsEventProxy::take_wakeup` (view.rs lines 74-77):
`wakeup.swap(false)` — returns the old flag, leaves the flag `false`. -/
def take_wakeup (wakeup : Bool) : Bool × Bool := (wakeup, false)

/-- `NeomacsEventProxy::send_event` (view.rs lines 80-97): `Wakeup`
stores `true` into the flag; `Title`, `Bell`, `Exit` and everything
else only log and leave the flag unchanged. -/
def send_event (wakeup : Bool) (event : TermEvent) : Bool :=
  match event with
  | .Wakeup => true
  | .Title _ => wakeup
  | .Bell => wakeup
  | .Exit => wakeup
  | .otherEvent => wakeup

/-! ## TerminalView (view.rs lines 100-261) -/

/-- A single terminal session (`TerminalView`), with the proxy's wakeup
flag inlined as a field (in Rust it is an `Arc<AtomicBool>` shared with
the reader thread; this sequential model threads it explicitly).  The
PTY writer and reader-thread handles carry no state the claims touch. -/
structure TerminalView where
  id : TerminalId
  mode : TerminalMode
  term : TermM
  wakeup : Bool
  last_content : Option TerminalContent
  dirty : Bool
  float_x : ℚ
  float_y : ℚ
  float_opacity : ℚ

/-- Modelled from the spec: `alacritty_terminal::Term::new` (the
external VT engine's constructor) produces a grid of the requested
dimensions filled with blank cells, cursor at the origin, cursor
visible (`TermMode::default()` contains `SHOW_CURSOR`). -/
def TermM.new (cols rows : Nat) : TermM :=
  { cols := cols
    rows := rows
    cell := fun _ _ =>
      ⟨' ', .Named .Foreground, .Named .Background, ⟨false, 0⟩⟩
    cursor_line := 0
    cursor_col := 0
    show_cursor := true }

/-- Modelled from the spec: the external VT engine's
`Term::resize` ("reflow/truncation policy is entirely the engine's
responsibility"); only the dimensions are specified, the cell contents
after reflow are engine-internal. -/
def TermM.resize (t : TermM) (cols rows : Nat) : TermM :=
  { t with cols := cols, rows := rows }

/-- `TerminalView::new` (view.rs lines 123-212).  PTY allocation, shell
spawn, handle duplication and thread spawn are OS effects outside the
embedding; the `pty_ok` oracle decides whether any of those fallible
steps fails (all of them abort construction via `?` before `Self` is
built, so one oracle covers them).  On success: fresh engine state,
wakeup flag `false`, `last_content: None`, `dirty: true`. -/
def TerminalView.new (id : TerminalId) (cols rows : Nat)
    (mode : TerminalMode) (_shell : Option (List Char)) (pty_ok : Bool) :
    Option TerminalView :=
  if pty_ok then
    some { id := id
           mode := mode
           term := TermM.new cols rows
           wakeup := false
           last_content := none
           dirty := true
           float_x := 0
           float_y := 0
           float_opacity := 1 }
  else none

/-- `TerminalView::resize` (view.rs lines 221-227): engine resize under
the grid lock, then `dirty = true`. -/
def TerminalView.resize (v : TerminalView) (cols rows : Nat) :
    TerminalView :=
  { v with term := v.term.resize cols rows, dirty := true }

/-- `TerminalView::update_content` (view.rs lines 230-239):
`take_wakeup() || dirty` — the Rust `||` evaluates `take_wakeup()`
unconditionally (clearing the flag) and `dirty` only when the wakeup
was clear.  When either held: extract a snapshot into `last_content`,
clear `dirty`, return `true`; otherwise return `false`. -/
def TerminalView.update_content (v : TerminalView) :
    Bool × TerminalView :=
  let wp := take_wakeup v.wakeup
  if wp.1 || v.dirty then
    (true, { v with
             wakeup := wp.2
             last_content := some (TerminalContent.from_term v.term)
             dirty := false })
  else
    (false, { v with wakeup := wp.2 })

/-- `TerminalView::content` (view.rs lines 242-244). -/
def TerminalView.content (v : TerminalView) : Option TerminalContent :=
  v.last_content

/-- `TerminalView::get_text` (view.rs lines 247-251). -/
def TerminalView.get_text (v : TerminalView) (sr sc er ec : Nat) :
    List Char :=
  extract_text v.term sr sc er ec

/-! ## TerminalManager (view.rs lines 263-331)

The `HashMap<TerminalId, TerminalView>` is modelled as a key-unique
association list (`insertKey` replaces an existing binding, as
`HashMap::insert` does; iteration order stands in for the hash map's
unspecified order — the claims only use membership). -/

/-- Remove every binding of key `k` (`HashMap::remove`). -/
def eraseKey (k : TerminalId) (l : List (TerminalId × TerminalView)) :
    List (TerminalId × TerminalView) :=
  l.filter fun p => p.1 ≠ k

/-- Insert-or-replace a binding (`HashMap::insert`). -/
def insertKey (k : TerminalId) (v : TerminalView)
    (l : List (TerminalId × TerminalView)) :
    List (TerminalId × TerminalView) :=
  (k, v) :: eraseKey k l

/-- Key lookup (`HashMap::get`). -/
def lookupKey (k : TerminalId) (l : List (TerminalId × TerminalView)) :
    Option TerminalView :=
  (l.find? fun p => p.1 = k).map (·.2)

/-- `TerminalManager` (view.rs lines 264-267). -/
structure TerminalManager where
  terminals : List (TerminalId × TerminalView)
  next_id : Nat

/-- `TerminalManager::new` (view.rs lines 270-275): empty registry,
`next_id = 1`. -/
def TerminalManager.new : TerminalManager := ⟨[], 1⟩

/-- `TerminalManager::create` (view.rs lines 278-290): read `next_id`,
increment it (a `u32` increment, hence mod `2^32`), then attempt
`TerminalView::new`; on failure the `?` returns before the registry is
touched, on success the view is registered under the read id. -/
def TerminalManager.create (m : TerminalManager) (cols rows : Nat)
    (mode : TerminalMode) (shell : Option (List Char)) (pty_ok : Bool) :
    Option TerminalId × TerminalManager :=
  let id := m.next_id
  let next := (m.next_id + 1) % 2 ^ 32
  match TerminalView.new id cols rows mode shell pty_ok with
  | none => (none, { m with next_id := next })
  | some view =>
      (some id, { terminals := insertKey id view m.terminals
                  next_id := next })

/-- `TerminalManager::destroy` (view.rs lines 293-295):
`terminals.remove(&id).is_some()`. -/
def TerminalManager.destroy (m : TerminalManager) (id : TerminalId) :
    Bool × TerminalManager :=
  ((lookupKey id m.terminals).isSome,
   { m with terminals := eraseKey id m.terminals })

/-- `TerminalManager::get` (view.rs lines 298-300). -/
def TerminalManager.get (m : TerminalManager) (id : TerminalId) :
    Option TerminalView :=
  lookupKey id m.terminals

/-- `TerminalManager::update_all` (view.rs lines 308-316): run
`update_content` on every registered session, collect the ids that
reported a change. -/
def TerminalManager.update_all (m : TerminalManager) :
    List TerminalId × TerminalManager :=
  let updated := m.terminals.map fun p => (p.1, p.2.update_content)
  (updated.filterMap fun p => if p.2.1 then some p.1 else none,
   { m with terminals := updated.map fun p => (p.1, p.2.2) })

/-! ## Operation traces over the manager -/

/-- One external operation on the manager: a `create` attempt (with its
PTY/spawn outcome oracle) or a `destroy`. -/
inductive Op where
  | create (cols rows : Nat) (mode : TerminalMode)
      (shell : Option (List Char)) (pty_ok : Bool)
  | destroy (id : TerminalId)

/-- Run one operation, returning the id a successful `create` handed
out. -/
def TerminalManager.step (m : TerminalManager) :
    Op → Option TerminalId × TerminalManager
  | .create c r md sh ok => m.create c r md sh ok
  | .destroy i => (none, (m.destroy i).2)

/-- Run a trace of operations. -/
def runOps (m : TerminalManager) : List Op → TerminalManager
  | [] => m
  | op :: rest => runOps (m.step op).2 rest

/-- The ids returned by the successful `create` calls of a trace, in
call order. -/
def createdIds (m : TerminalManager) : List Op → List Nat
  | [] => []
  | op :: rest =>
      match m.step op with
      | (some i, m') => i :: createdIds m' rest
      | (none, m') => createdIds m' rest

/-- The number of `create` calls (successful or not) in a trace. -/
def numCreates : List Op → Nat
  | [] => 0
  | .create _ _ _ _ _ :: rest => numCreates rest + 1
  | .destroy _ :: rest => numCreates rest

/-- The manager in its initial state. -/
def mgr0 : TerminalManager := TerminalManager.new

/-! ## Concrete sample states (used by witnesses) -/

/-- A 2×3 grid holding a double-width character at (0,0) whose spacer
sits at (0,1). -/
def sampleTerm : TermM :=
  { cols := 3
    rows := 2
    cell := fun l c =>
      if l = 0 ∧ c = 0 then ⟨'W', .Indexed 2, .Indexed 0, ⟨false, 1⟩⟩
      else if l = 0 ∧ c = 1 then ⟨' ', .Indexed 2, .Indexed 0, ⟨true, 0⟩⟩
      else ⟨'x', .Named .Foreground, .Named .Background, ⟨false, 0⟩⟩
    cursor_line := 0
    cursor_col := 1
    show_cursor := true }

/-- A 2×5 grid spelling `"ab   "` on row 0 and `" c d "` on row 1. -/
def sampleTerm2 : TermM :=
  { cols := 5
    rows := 2
    cell := fun l c =>
      let ch : Char :=
        if l = 0 then (if c = 0 then 'a' else if c = 1 then 'b' else ' ')
        else if l = 1 then (if c = 1 then 'c' else if c = 3 then 'd' else ' ')
        else '!'
      ⟨ch, .Named .Foreground, .Named .Background, ⟨false, 0⟩⟩
    cursor_line := 0
    cursor_col := 0
    show_cursor := true }

/-- A session state over `sampleTerm` with both flags clear. -/
def sampleView : TerminalView :=
  { id := 1
    mode := .Window
    term := sampleTerm
    wakeup := false
    last_content := none
    dirty := false
    float_x := 0
    float_y := 0
    float_opacity := 1 }

/-- A `create` operation with fixed geometry and the given outcome. -/
def mkCreate (pty_ok : Bool) : Op :=
  Op.create 80 24 .Window none pty_ok

/-- The `RenderCell` that `TerminalContent::from_term` builds for grid
position `(row, col)` (content.rs lines 83-90). -/
def mkRC (t : TermM) (row col : Nat) : RenderCell :=
  { col := col
    row := row
    c := (t.cell (toI32 row) col).c
    fg := ansi_to_color (t.cell (toI32 row) col).fg Color.WHITE Color.BLACK
    bg := ansi_to_color (t.cell (toI32 row) col).bg Color.WHITE Color.BLACK
    flags := (t.cell (toI32 row) col).flags }

/-- The cells one grid row contributes to a snapshot (the inner column
loop of `from_term`). -/
def fromTermRow (t : TermM) (row_idx : Nat) : List RenderCell :=
  (List.range t.cols).filterMap fun col_idx =>
    let cell := t.cell (toI32 row_idx) col_idx
    if cell.flags.wideCharSpacer then none
    else
      some { col := col_idx
             row := row_idx
             c := cell.c
             fg := ansi_to_color cell.fg Color.WHITE Color.BLACK
             bg := ansi_to_color cell.bg Color.WHITE Color.BLACK
             flags := cell.flags }

/-- A 1×1 grid holding an `'x'` everywhere the cell function is
sampled. -/
def sampleTerm1 : TermM :=
  { cols := 1
    rows := 1
    cell := fun _ _ =>
      ⟨'x', .Named .Foreground, .Named .Background, ⟨false, 0⟩⟩
    cursor_line := 0
    cursor_col := 0
    show_cursor := true }

/-- A session state over `sampleTerm2`. -/
def sampleView2 : TerminalView :=
  { id := 2
    mode := .Window
    term := sampleTerm2
    wakeup := false
    last_content := none
    dirty := false
    float_x := 0
    float_y := 0
    float_opacity := 1 }

end Neomacs

namespace Neomacs

/-! ## Supporting lemmas -/

theorem foldl_send_event_all_wakeup (events : List TermEvent) (s : Bool)
    (hne : events ≠ []) (hall : ∀ e ∈ events, e = TermEvent.Wakeup) :
    events.foldl send_event s = true := by
  induction events generalizing s with
  | nil => exact absurd rfl hne
  | cons e rest ih =>
    have he : e = TermEvent.Wakeup := hall e (List.mem_cons_self e rest)
    subst he
    rcases rest with _ | ⟨e', rest'⟩
    · rfl
    · exact ih true (by simp)
        (fun e hm => hall e (List.mem_cons_of_mem _ hm))

theorem mem_update_all_mem_keys (m : TerminalManager) (i : TerminalId)
    (h : i ∈ (m.update_all).1) : (lookupKey i m.terminals).isSome := by
  unfold TerminalManager.update_all at h
  simp only [List.mem_filterMap, List.mem_map] at h
  obtain ⟨p, ⟨q, hq, rfl⟩, hmem⟩ := h
  have hqi : q.1 = i := by
    by_cases hc : (q.2.update_content).1 <;> simp [hc] at hmem
    exact hmem
  have hfind : (m.terminals.find? fun p => p.1 = i).isSome := by
    rw [List.find?_isSome]
    exact ⟨q, hq, by simp [hqi]⟩
  rw [lookupKey]
  rcases hOpt : m.terminals.find? fun p => p.1 = i with _ | v
  · rw [hOpt] at hfind; simp at hfind
  · rw [hOpt]; rfl

theorem toI32_of_lt {n : Nat} (h : n < 2 ^ 31) : toI32 n = (n : Int) := by
  have h2 : n % 2 ^ 32 = n := Nat.mod_eq_of_lt (by omega)
  simp only [toI32, h2]
  rw [if_pos h]

theorem from_term_cells (t : TermM) :
    (TerminalContent.from_term t).cells =
      (List.range t.rows).flatMap (fromTermRow t) := rfl

theorem mem_fromTermRow_props {t : TermM} {row : Nat} {rc : RenderCell}
    (h : rc ∈ fromTermRow t row) :
    rc.row = row ∧ rc.col < t.cols ∧ rc.flags.wideCharSpacer = false := by
  simp only [fromTermRow, List.mem_filterMap, List.mem_range] at h
  obtain ⟨col, hcol, hcell⟩ := h
  by_cases hsp : (t.cell (toI32 row) col).flags.wideCharSpacer
  · rw [if_pos hsp] at hcell
    exact absurd hcell (by simp)
  · rw [if_neg hsp] at hcell
    obtain rfl := Option.some.inj hcell
    exact ⟨rfl, hcol, by simpa using hsp⟩

theorem mkRC_mem {t : TermM} {row col : Nat} (hc : col < t.cols)
    (hsp : (t.cell (toI32 row) col).flags.wideCharSpacer = false) :
    mkRC t row col ∈ fromTermRow t row := by
  rw [fromTermRow]
  refine List.mem_filterMap.2 ⟨col, List.mem_range.2 hc, ?_⟩
  simp [hsp, mkRC]

end Neomacs

namespace Neomacs

/-! ## Claim C3 — snapshot cell enumeration -/

/-- C3: a snapshot enumerates the grid's cells in row-major order, no
snapshot cell carries the wide-character continuation marker, the cells
present all lie in the visible grid, and exactly the non-spacer cells
appear: each visible non-spacer grid cell contributes one snapshot cell
carrying its character, resolved colors and flags.  (Real
`alacritty_terminal` grids satisfy `rows ≤ 2^31` — visible lines are
`i32` values — which makes the `usize as i32` line cast the
identity.) -/
theorem C3_snapshot_row_major_no_spacer (t : TermM)
    (h32 : t.rows ≤ 2 ^ 31) :
    (∀ rc ∈ (TerminalContent.from_term t).cells,
        rc.flags.wideCharSpacer = false ∧ rc.row < t.rows ∧
        rc.col < t.cols) ∧
    List.Pairwise
      (fun a b : RenderCell =>
        a.row < b.row ∨ (a.row = b.row ∧ a.col < b.col))
      (TerminalContent.from_term t).cells ∧
    (∀ row col, row < t.rows → col < t.cols →
        (t.cell (row : Int) col).flags.wideCharSpacer = false →
        mkRC t row col ∈ (TerminalContent.from_term t).cells ∧
        mkRC t row col =
          { col := col
            row := row
            c := (t.cell (row : Int) col).c
            fg := ansi_to_color (t.cell (row : Int) col).fg
                    Color.WHITE Color.BLACK
            bg := ansi_to_color (t.cell (row : Int) col).bg
                    Color.WHITE Color.BLACK
            flags := (t.cell (row : Int) col).flags }) := by
  refine ⟨?_, ?_, ?_⟩
  · intro rc hrc
    rw [from_term_cells] at hrc
    obtain ⟨row, hrow, hmem⟩ := List.mem_flatMap.1 hrc
    rw [List.mem_range] at hrow
    obtain ⟨hr, hc, hsp⟩ := mem_fromTermRow_props hmem
    exact ⟨hsp, hr ▸ hrow, hc⟩
  · rw [from_term_cells]
    refine List.pairwise_flatMap.2 ⟨?_, ?_⟩
    · intro row hrow
      rw [fromTermRow]
      refine List.Pairwise.filterMap _ ?_ (List.pairwise_lt_range t.cols)
      intro c1 c2 hlt b hb b' hb'
      simp only [Option.mem_def] at hb hb'
      by_cases h1 : (t.cell (toI32 row) c1).flags.wideCharSpacer
      · rw [if_pos h1] at hb
        exact absurd hb (by simp)
      · by_cases h2 : (t.cell (toI32 row) c2).flags.wideCharSpacer
        · rw [if_pos h2] at hb'
          exact absurd hb' (by simp)
        · rw [if_neg h1] at hb
          rw [if_neg h2] at hb'
          obtain rfl := Option.some.inj hb
          obtain rfl := Option.some.inj hb'
          exact Or.inr ⟨rfl, hlt⟩
    · refine (List.pairwise_lt_range t.rows).imp ?_
      intro r1 r2 hlt x hx y hy
      rw [(mem_fromTermRow_props hx).1, (mem_fromTermRow_props hy).1]
      exact Or.inl hlt
  · intro row col hrow hcol hsp
    have hc : toI32 row = (row : Int) := toI32_of_lt (by omega)
    rw [← hc] at hsp
    refine ⟨?_, ?_⟩
    · rw [from_term_cells]
      exact List.mem_flatMap.2
        ⟨row, List.mem_range.2 hrow, mkRC_mem hcol hsp⟩
    · rw [mkRC, hc]

/-- Witness for C3: a concrete snapshot cell of `sampleTerm`. -/
theorem C3_witness :
    sampleTerm.rows ≤ 2 ^ 31 ∧
    mkRC sampleTerm 1 0 ∈
      (TerminalContent.from_term sampleTerm).cells :=
  ⟨by norm_num [sampleTerm],
   ((C3_snapshot_row_major_no_spacer sampleTerm
      (by norm_num [sampleTerm])).2.2 1 0
      (by norm_num [sampleTerm]) (by norm_num [sampleTerm])
      (by decide)).1⟩

end Neomacs

namespace Neomacs

/-! ## Claim C1 — resize then update_content -/

/-- C1: after `resize(cols, rows)` on a session with no wakeup signaled,
`update_content()` returns "changed" exactly once: the first call
returns `true` (resize set the dirty flag) and an immediately following
call with no intervening event or resize returns `false` (extraction
cleared the dirty flag). -/
theorem C1_resize_then_update_changed_once (v : TerminalView)
    (cols rows : Nat) (hw : v.wakeup = false) :
    ((v.resize cols rows).update_content).1 = true ∧
    (((v.resize cols rows).update_content).2.update_content).1 = false := by
  simp [TerminalView.resize, TerminalView.update_content, take_wakeup, hw]

/-- Witness for C1 at a concrete session state. -/
theorem C1_witness :
    sampleView.wakeup = false ∧
    ((sampleView.resize 4 2).update_content).1 = true ∧
    (((sampleView.resize 4 2).update_content).2.update_content).1 = false :=
  ⟨rfl, C1_resize_then_update_changed_once sampleView 4 2 rfl⟩

/-! ## Claim C2 — wakeup flag coalescing -/

/-- C2: after one or more `ContentChanged` (`Wakeup`) events with no
intervening `take_wakeup()`, the next `take_wakeup()` returns `true`
and the one immediately after it returns `false`: repeated signals
coalesce, and `take_wakeup` tests and clears the flag. -/
theorem C2_wakeup_coalesces (s : Bool) (events : List TermEvent)
    (hne : events ≠ []) (hall : ∀ e ∈ events, e = TermEvent.Wakeup) :
    (take_wakeup (events.foldl send_event s)).1 = true ∧
    (take_wakeup (take_wakeup (events.foldl send_event s)).2).1 = false := by
  rw [foldl_send_event_all_wakeup events s hne hall]
  exact ⟨rfl, rfl⟩

/-- Witness for C2: three coalesced signals from a clear flag. -/
theorem C2_witness :
    ([TermEvent.Wakeup, TermEvent.Wakeup, TermEvent.Wakeup] ≠
      ([] : List TermEvent)) ∧
    (take_wakeup
      (([TermEvent.Wakeup, TermEvent.Wakeup, TermEvent.Wakeup]).foldl
        send_event false)).1 = true ∧
    (take_wakeup
      (take_wakeup
        (([TermEvent.Wakeup, TermEvent.Wakeup, TermEvent.Wakeup]).foldl
          send_event false)).2).1 = false :=
  ⟨by decide,
   C2_wakeup_coalesces false [.Wakeup, .Wakeup, .Wakeup] (by decide)
     (by decide)⟩

/-! ## Claim C8 — fresh session state -/

/-- C8: a freshly created session has `content() = None`; its first
`update_content()` returns `true` even with no output and no resize
(the dirty flag is initialized `true` at construction) and populates
`last_content`. -/
theorem C8_fresh_session_first_update (id cols rows : Nat)
    (mode : TerminalMode) (shell : Option (List Char)) (v : TerminalView)
    (h : TerminalView.new id cols rows mode shell true = some v) :
    v.content = none ∧
    (v.update_content).1 = true ∧
    (v.update_content).2.last_content =
      some (TerminalContent.from_term v.term) := by
  simp only [TerminalView.new, if_pos, Option.some.injEq] at h
  subst h
  refine ⟨rfl, ?_, ?_⟩ <;>
    simp [TerminalView.update_content, take_wakeup, TerminalView.content]

/-- Witness for C8 at a concrete construction. -/
theorem C8_witness :
    TerminalView.new 7 80 24 .Window none true =
      some ((TerminalView.new 7 80 24 .Window none true).getD sampleView) ∧
    (((TerminalView.new 7 80 24 .Window none true).getD
        sampleView).update_content).1 = true :=
  ⟨rfl,
   (C8_fresh_session_first_update 7 80 24 .Window none
     ((TerminalView.new 7 80 24 .Window none true).getD sampleView)
     rfl).2.1⟩

/-! ## Claim C7 — failed create leaves the registry untouched -/

/-- C7: a `create` whose PTY allocation / shell spawn fails returns no
id and leaves the manager's registry unchanged; `get` on the attempted
id still returns `None` (provided that id was not already registered)
and `update_all` does not visit it. -/
theorem C7_failed_create_registers_nothing (m : TerminalManager)
    (cols rows : Nat) (mode : TerminalMode) (shell : Option (List Char))
    (hid : m.get m.next_id = none) :
    (m.create cols rows mode shell false).1 = none ∧
    (m.create cols rows mode shell false).2.terminals = m.terminals ∧
    (m.create cols rows mode shell false).2.get m.next_id = none ∧
    m.next_id ∉ ((m.create cols rows mode shell false).2.update_all).1 := by
  have hterm : (m.create cols rows mode shell false).2.terminals =
      m.terminals := by
    simp [TerminalManager.create, TerminalView.new]
  refine ⟨by simp [TerminalManager.create, TerminalView.new], hterm, ?_, ?_⟩
  · rw [TerminalManager.get, hterm]; exact hid
  · intro hmem
    have := mem_update_all_mem_keys _ _ hmem
    rw [hterm] at this
    rw [TerminalManager.get] at hid
    rw [hid] at this
    exact absurd this (by simp)

/-- Witness for C7: a failed create on the empty manager. -/
theorem C7_witness :
    mgr0.get mgr0.next_id = none ∧
    (mgr0.create 80 24 .Window none false).1 = none ∧
    (mgr0.create 80 24 .Window none false).2.terminals = mgr0.terminals ∧
    (mgr0.create 80 24 .Window none false).2.get mgr0.next_id = none :=
  ⟨rfl,
   (C7_failed_create_registers_nothing mgr0 80 24 .Window none rfl).1,
   (C7_failed_create_registers_nothing mgr0 80 24 .Window none rfl).2.1,
   (C7_failed_create_registers_nothing mgr0 80 24 .Window none rfl).2.2.1⟩

/-! ## Claim C5 — indexed-color palette -/

/-- C5: indexed-color resolution follows the three-tier palette:
indices 0-15 use the fixed 16-entry named table; for `16 ≤ i ≤ 231`,
writing `i - 16` in base 6 as `(r, g, b)`, each channel resolves to `0`
for digit `0` and to `(55 + 40·digit)/255` otherwise; for
`232 ≤ i ≤ 255` all three channels equal `(8 + 10·(i-232))/255`.
Point facts: index 0 is near-black (`r < 0.01`), 15 near-white
(`r > 0.99`), 16 is `(0,0,0)`, 231 is `(1,1,1)`, 232 a small positive
gray, 255 near-white. -/
theorem C5_palette_tiers (default_fg default_bg : Color) :
    (∀ i, i ≤ 15 →
      ∃ r g b, named16.get? i = some (r, g, b) ∧
        ansi_to_color (.Indexed i) default_fg default_bg =
          rgbColor r g b) ∧
    (∀ i, 16 ≤ i → i ≤ 231 →
      ansi_to_color (.Indexed i) default_fg default_bg =
        ⟨to_val ((i - 16) / 36), to_val (((i - 16) / 6) % 6),
         to_val ((i - 16) % 6), 1⟩) ∧
    (∀ i, 232 ≤ i → i ≤ 255 →
      ansi_to_color (.Indexed i) default_fg default_bg =
        ⟨((8 + 10 * (i - 232) : Nat) : ℚ) / 255,
         ((8 + 10 * (i - 232) : Nat) : ℚ) / 255,
         ((8 + 10 * (i - 232) : Nat) : ℚ) / 255, 1⟩) ∧
    (ansi_to_color (.Indexed 0) default_fg default_bg).r < 1 / 100 ∧
    (ansi_to_color (.Indexed 15) default_fg default_bg).r > 99 / 100 ∧
    ansi_to_color (.Indexed 16) default_fg default_bg = ⟨0, 0, 0, 1⟩ ∧
    ansi_to_color (.Indexed 231) default_fg default_bg = ⟨1, 1, 1, 1⟩ ∧
    (0 < (ansi_to_color (.Indexed 232) default_fg default_bg).r ∧
      (ansi_to_color (.Indexed 232) default_fg default_bg).r < 1 / 10) ∧
    (ansi_to_color (.Indexed 255) default_fg default_bg).r > 9 / 10 := by
  refine ⟨?_, ?_, ?_, ?_, ?_, ?_, ?_, ?_, ?_⟩
  · intro i hi
    interval_cases i <;> exact ⟨_, _, _, rfl, rfl⟩
  · intro i h1 h2
    have hk : (i - 16) / 36 % 6 = (i - 16) / 36 :=
      Nat.mod_eq_of_lt (by omega)
    show COLOR_256 i = _
    rw [COLOR_256, if_neg (by omega), if_pos (by omega)]
    simp only [hk]
  · intro i h1 h2
    show COLOR_256 i = _
    rw [COLOR_256, if_neg (by omega), if_neg (by omega), if_pos (by omega)]
  · show (COLOR_256 0).r < 1 / 100
    norm_num [COLOR_256, named16, rgbColor]
  · show (COLOR_256 15).r > 99 / 100
    norm_num [COLOR_256, named16, rgbColor]
  · show COLOR_256 16 = ⟨0, 0, 0, 1⟩
    norm_num [COLOR_256, to_val]
  · show COLOR_256 231 = ⟨1, 1, 1, 1⟩
    norm_num [COLOR_256, to_val]
  · refine ⟨show 0 < (COLOR_256 232).r from ?_,
            show (COLOR_256 232).r < 1 / 10 from ?_⟩ <;>
      norm_num [COLOR_256]
  · show (COLOR_256 255).r > 9 / 10
    norm_num [COLOR_256]

/-- Witness for C5 at concrete palette indices. -/
theorem C5_witness :
    (16 ≤ 100 ∧ 100 ≤ 231) ∧ (232 ≤ 240 ∧ 240 ≤ 255) ∧ (3 : Nat) ≤ 15 ∧
    ansi_to_color (.Indexed 100) Color.WHITE Color.BLACK =
      ⟨to_val ((100 - 16) / 36), to_val (((100 - 16) / 6) % 6),
       to_val ((100 - 16) % 6), 1⟩ ∧
    ansi_to_color (.Indexed 240) Color.WHITE Color.BLACK =
      ⟨((8 + 10 * (240 - 232) : Nat) : ℚ) / 255,
       ((8 + 10 * (240 - 232) : Nat) : ℚ) / 255,
       ((8 + 10 * (240 - 232) : Nat) : ℚ) / 255, 1⟩ :=
  ⟨⟨by decide, by decide⟩, ⟨by decide, by decide⟩, by decide,
   (C5_palette_tiers Color.WHITE Color.BLACK).2.1 100 (by decide)
     (by decide),
   (C5_palette_tiers Color.WHITE Color.BLACK).2.2.1 240 (by decide)
     (by decide)⟩

end Neomacs

namespace Neomacs

/-! ## Manager-trace lemmas (for C4 and C9) -/

theorem create_fst (m : TerminalManager) (c r : Nat) (md : TerminalMode)
    (sh : Option (List Char)) (ok : Bool) :
    (m.create c r md sh ok).1 = if ok then some m.next_id else none := by
  cases ok <;> simp [TerminalManager.create, TerminalView.new]

theorem create_next_id (m : TerminalManager) (c r : Nat)
    (md : TerminalMode) (sh : Option (List Char)) (ok : Bool) :
    (m.create c r md sh ok).2.next_id = (m.next_id + 1) % 2 ^ 32 := by
  cases ok <;> simp [TerminalManager.create, TerminalView.new]

theorem destroy_next_id (m : TerminalManager) (i : TerminalId) :
    (m.destroy i).2.next_id = m.next_id := rfl

theorem createdIds_cons_true (m : TerminalManager) (c r : Nat)
    (md : TerminalMode) (sh : Option (List Char)) (rest : List Op) :
    createdIds m (Op.create c r md sh true :: rest) =
      m.next_id :: createdIds (m.create c r md sh true).2 rest := rfl

theorem createdIds_cons_false (m : TerminalManager) (c r : Nat)
    (md : TerminalMode) (sh : Option (List Char)) (rest : List Op) :
    createdIds m (Op.create c r md sh false :: rest) =
      createdIds (m.create c r md sh false).2 rest := rfl

theorem createdIds_cons_destroy (m : TerminalManager) (i : TerminalId)
    (rest : List Op) :
    createdIds m (Op.destroy i :: rest) =
      createdIds (m.destroy i).2 rest := rfl

theorem numCreates_append (l1 l2 : List Op) :
    numCreates (l1 ++ l2) = numCreates l1 + numCreates l2 := by
  induction l1 with
  | nil => simp [numCreates]
  | cons op rest ih =>
    cases op with
    | create c r md sh ok =>
      show numCreates (rest ++ l2) + 1 = numCreates rest + 1 + numCreates l2
      rw [ih]
      omega
    | destroy i =>
      show numCreates (rest ++ l2) = numCreates rest + numCreates l2
      exact ih

theorem runOps_append (m : TerminalManager) (l1 l2 : List Op) :
    runOps m (l1 ++ l2) = runOps (runOps m l1) l2 := by
  induction l1 generalizing m with
  | nil => rfl
  | cons op rest ih => exact ih _

theorem createdIds_append (m : TerminalManager) (l1 l2 : List Op) :
    createdIds m (l1 ++ l2) =
      createdIds m l1 ++ createdIds (runOps m l1) l2 := by
  induction l1 generalizing m with
  | nil => rfl
  | cons op rest ih =>
    cases op with
    | create c r md sh ok =>
      cases ok
      · rw [List.cons_append, createdIds_cons_false, createdIds_cons_false,
          ih]
        rfl
      · rw [List.cons_append, createdIds_cons_true, createdIds_cons_true,
          ih]
        rfl
    | destroy i =>
      rw [List.cons_append, createdIds_cons_destroy, createdIds_cons_destroy,
        ih]
      rfl

theorem runOps_next_id (ops : List Op) (m : TerminalManager)
    (hb : m.next_id + numCreates ops < 2 ^ 32) :
    (runOps m ops).next_id = m.next_id + numCreates ops := by
  induction ops generalizing m with
  | nil => simp [runOps, numCreates]
  | cons op rest ih =>
    cases op with
    | create c r md sh ok =>
      have hnc : numCreates (Op.create c r md sh ok :: rest) =
          numCreates rest + 1 := rfl
      rw [hnc] at hb
      have hstep : ((m.step (Op.create c r md sh ok)).2).next_id =
          m.next_id + 1 := by
        show (m.create c r md sh ok).2.next_id = m.next_id + 1
        rw [create_next_id]
        exact Nat.mod_eq_of_lt (by omega)
      show (runOps (m.step (Op.create c r md sh ok)).2 rest).next_id = _
      rw [ih _ (by rw [hstep]; omega), hstep, hnc]
      omega
    | destroy i =>
      have hnc : numCreates (Op.destroy i :: rest) = numCreates rest := rfl
      rw [hnc] at hb
      show (runOps (m.destroy i).2 rest).next_id = _
      rw [ih _ (by rw [destroy_next_id]; omega), destroy_next_id, hnc]

theorem createdIds_bounds (ops : List Op) (m : TerminalManager)
    (hb : m.next_id + numCreates ops < 2 ^ 32) :
    ∀ i ∈ createdIds m ops,
      m.next_id ≤ i ∧ i < m.next_id + numCreates ops := by
  induction ops generalizing m with
  | nil => simp [createdIds]
  | cons op rest ih =>
    cases op with
    | create c r md sh ok =>
      have hnc : numCreates (Op.create c r md sh ok :: rest) =
          numCreates rest + 1 := rfl
      rw [hnc] at hb
      have hstep : (m.create c r md sh ok).2.next_id = m.next_id + 1 := by
        rw [create_next_id]
        exact Nat.mod_eq_of_lt (by omega)
      cases ok
      · rw [createdIds_cons_false]
        intro i hi
        have := ih _ (by rw [hstep]; omega) i hi
        rw [hstep] at this
        rw [hnc]
        omega
      · rw [createdIds_cons_true]
        intro i hi
        rw [hnc]
        rcases List.mem_cons.1 hi with rfl | hi'
        · omega
        · have := ih _ (by rw [hstep]; omega) i hi'
          rw [hstep] at this
          omega
    | destroy j =>
      have hnc : numCreates (Op.destroy j :: rest) = numCreates rest := rfl
      rw [hnc] at hb
      rw [createdIds_cons_destroy]
      intro i hi
      have := ih _ (by rw [destroy_next_id]; omega) i hi
      rw [destroy_next_id] at this
      rw [hnc]
      omega

theorem createdIds_pairwise (ops : List Op) (m : TerminalManager)
    (hb : m.next_id + numCreates ops < 2 ^ 32) :
    (createdIds m ops).Pairwise (· < ·) := by
  induction ops generalizing m with
  | nil => exact List.Pairwise.nil
  | cons op rest ih =>
    cases op with
    | create c r md sh ok =>
      have hnc : numCreates (Op.create c r md sh ok :: rest) =
          numCreates rest + 1 := rfl
      rw [hnc] at hb
      have hstep : (m.create c r md sh ok).2.next_id = m.next_id + 1 := by
        rw [create_next_id]
        exact Nat.mod_eq_of_lt (by omega)
      cases ok
      · rw [createdIds_cons_false]
        exact ih _ (by rw [hstep]; omega)
      · rw [createdIds_cons_true]
        refine List.Pairwise.cons ?_ (ih _ (by rw [hstep]; omega))
        intro i hi
        have := createdIds_bounds rest _ (by rw [hstep]; omega) i hi
        rw [hstep] at this
        omega
    | destroy j =>
      have hnc : numCreates (Op.destroy j :: rest) = numCreates rest := rfl
      rw [hnc] at hb
      rw [createdIds_cons_destroy]
      exact ih _ (by rw [destroy_next_id]; omega)

end Neomacs

namespace Neomacs

/-! ## Association-list lemmas for the registry -/

theorem lookupKey_eraseKey_self (k : TerminalId)
    (l : List (TerminalId × TerminalView)) :
    lookupKey k (eraseKey k l) = none := by
  induction l with
  | nil => rfl
  | cons p rest ih =>
    by_cases hp : p.1 = k
    · have he : eraseKey k (p :: rest) = eraseKey k rest := by
        simp [eraseKey, List.filter_cons, hp]
      rw [he]
      exact ih
    · have he : eraseKey k (p :: rest) = p :: eraseKey k rest := by
        simp [eraseKey, List.filter_cons, hp]
      rw [he, lookupKey, List.find?_cons_of_neg _ (by simp [hp])]
      exact ih

theorem lookupKey_eraseKey_ne {k k' : TerminalId} (h : k' ≠ k)
    (l : List (TerminalId × TerminalView)) :
    lookupKey k' (eraseKey k l) = lookupKey k' l := by
  induction l with
  | nil => rfl
  | cons p rest ih =>
    by_cases hp : p.1 = k
    · have he : eraseKey k (p :: rest) = eraseKey k rest := by
        simp [eraseKey, List.filter_cons, hp]
      have hne : ¬ p.1 = k' := by
        rw [hp]
        exact fun e => h e.symm
      have hr : lookupKey k' (p :: rest) = lookupKey k' rest := by
        rw [lookupKey, List.find?_cons_of_neg _ (by simp [hne])]
        rfl
      rw [he, ih, hr]
    · have he : eraseKey k (p :: rest) = p :: eraseKey k rest := by
        simp [eraseKey, List.filter_cons, hp]
      rw [he]
      by_cases hp' : p.1 = k'
      · rw [lookupKey, List.find?_cons_of_pos _ (by simp [hp']), lookupKey,
          List.find?_cons_of_pos _ (by simp [hp'])]
      · rw [lookupKey, List.find?_cons_of_neg _ (by simp [hp']), lookupKey,
          List.find?_cons_of_neg _ (by simp [hp'])]
        exact ih

theorem lookupKey_insertKey_ne {k k' : TerminalId} (h : k' ≠ k)
    (v : TerminalView) (l : List (TerminalId × TerminalView)) :
    lookupKey k' (insertKey k v l) = lookupKey k' l := by
  have hne : ¬ (k, v).1 = k' := fun e => h e.symm
  rw [insertKey, lookupKey, List.find?_cons_of_neg _ (by simp [hne])]
  exact lookupKey_eraseKey_ne h l

/-! ## Lookup preservation along a trace -/

theorem create_terminals_false (m : TerminalManager) (c r : Nat)
    (md : TerminalMode) (sh : Option (List Char)) :
    (m.create c r md sh false).2.terminals = m.terminals := rfl

theorem runOps_lookup_none (ops : List Op) (m : TerminalManager) (d : Nat)
    (hb : m.next_id + numCreates ops < 2 ^ 32)
    (hd : d < m.next_id)
    (hl : lookupKey d m.terminals = none) :
    lookupKey d (runOps m ops).terminals = none := by
  induction ops generalizing m with
  | nil => exact hl
  | cons op rest ih =>
    cases op with
    | create c r md sh ok =>
      have hnc : numCreates (Op.create c r md sh ok :: rest) =
          numCreates rest + 1 := rfl
      rw [hnc] at hb
      have hnext : (m.create c r md sh ok).2.next_id = m.next_id + 1 := by
        rw [create_next_id]
        exact Nat.mod_eq_of_lt (by omega)
      cases ok
      · exact ih (m.create c r md sh false).2 (by rw [hnext]; omega)
          (by rw [hnext]; omega)
          (by rw [create_terminals_false]; exact hl)
      · refine ih (m.create c r md sh true).2 (by rw [hnext]; omega)
          (by rw [hnext]; omega) ?_
        show lookupKey d (insertKey m.next_id _ m.terminals) = none
        rw [lookupKey_insertKey_ne (show d ≠ m.next_id by omega)]
        exact hl
    | destroy j =>
      have hnc : numCreates (Op.destroy j :: rest) = numCreates rest := rfl
      rw [hnc] at hb
      refine ih (m.destroy j).2 (by rw [destroy_next_id]; omega)
        (by rw [destroy_next_id]; omega) ?_
      show lookupKey d (eraseKey j m.terminals) = none
      by_cases hj : d = j
      · subst hj
        exact lookupKey_eraseKey_self d m.terminals
      · rw [lookupKey_eraseKey_ne hj]
        exact hl

/-! ## Wrap-around traces -/

theorem createdIds_one_true (m : TerminalManager) :
    createdIds m [mkCreate true] = [m.next_id] := rfl

theorem createdIds_replicate_fail (k : Nat) (m : TerminalManager) :
    createdIds m (List.replicate k (mkCreate false)) = [] := by
  induction k generalizing m with
  | zero => rfl
  | succ n ih =>
    rw [List.replicate_succ,
      show mkCreate false = Op.create 80 24 .Window none false from rfl,
      createdIds_cons_false]
    exact ih _

theorem runOps_replicate_fail_next_id (k : Nat) (m : TerminalManager)
    (h : m.next_id < 2 ^ 32) :
    (runOps m (List.replicate k (mkCreate false))).next_id =
      (m.next_id + k) % 2 ^ 32 := by
  induction k generalizing m with
  | zero => simpa [runOps] using (Nat.mod_eq_of_lt h).symm
  | succ n ih =>
    rw [List.replicate_succ]
    show (runOps (m.create 80 24 .Window none false).2 _).next_id = _
    have h1 : (m.create 80 24 TerminalMode.Window none false).2.next_id =
        (m.next_id + 1) % 2 ^ 32 := create_next_id _ _ _ _ _ _
    rw [ih _ (by rw [h1]; exact Nat.mod_lt _ (by norm_num)), h1]
    omega

end Neomacs

namespace Neomacs

/-! ## Claim C4 — no id reuse after destroy (corrected for u32 wrap) -/

/-- C4 counterexample: the id counter is a `u32` and `next_id += 1`
wraps modulo `2^32`, so after the first create hands out id 1 and id 1
is destroyed, a run of `2^32` further create calls hands out id 1
again: a destroyed SessionId IS returned by a later create. -/
theorem C4_counterexample :
    createdIds mgr0 [mkCreate true] = [1] ∧
    1 ∈ createdIds (runOps mgr0 [mkCreate true, Op.destroy 1])
        (List.replicate (2 ^ 32 - 1) (mkCreate false) ++ [mkCreate true]) := by
  refine ⟨rfl, ?_⟩
  rw [createdIds_append, createdIds_replicate_fail, List.nil_append,
    createdIds_one_true]
  have hm : (runOps mgr0 [mkCreate true, Op.destroy 1]).next_id = 2 := rfl
  rw [runOps_replicate_fail_next_id _ _ (by rw [hm]; norm_num), hm]
  simp only [List.mem_singleton]
  omega

/-- C4 (amended): as long as the total number of `create` calls stays
below the wrap-around of the `u32` id counter (at most `2^32 - 2`
creates), the ids returned by successful creates are strictly
increasing, an id that was created and then destroyed is never returned
by a later create, and `get` on that id returns `None` at the end of
the trace. -/
theorem C4_no_reuse_below_wrap (l1 l2 : List Op) (d : Nat)
    (hb : numCreates (l1 ++ Op.destroy d :: l2) ≤ 2 ^ 32 - 2)
    (hd : d ∈ createdIds mgr0 l1) :
    (createdIds mgr0 (l1 ++ Op.destroy d :: l2)).Pairwise (· < ·) ∧
    d ∉ createdIds (runOps mgr0 (l1 ++ [Op.destroy d])) l2 ∧
    (runOps mgr0 (l1 ++ Op.destroy d :: l2)).get d = none := by
  have hmgr : mgr0.next_id = 1 := rfl
  have hnca : numCreates (l1 ++ Op.destroy d :: l2) =
      numCreates l1 + numCreates l2 := by
    rw [numCreates_append]
    rfl
  have hb1 : mgr0.next_id + numCreates (l1 ++ Op.destroy d :: l2) <
      2 ^ 32 := by
    rw [hmgr, hnca]
    omega
  have hbl1 : mgr0.next_id + numCreates l1 < 2 ^ 32 := by
    rw [hmgr]
    omega
  have hA : (runOps mgr0 l1).next_id = 1 + numCreates l1 := by
    rw [runOps_next_id l1 mgr0 hbl1, hmgr]
  have hdb := createdIds_bounds l1 mgr0 hbl1 d hd
  rw [hmgr] at hdb
  have hBrun : runOps mgr0 (l1 ++ [Op.destroy d]) =
      ((runOps mgr0 l1).destroy d).2 := by
    rw [runOps_append]
    rfl
  have hBnext : (runOps mgr0 (l1 ++ [Op.destroy d])).next_id =
      1 + numCreates l1 := by
    rw [hBrun, destroy_next_id, hA]
  refine ⟨createdIds_pairwise _ _ hb1, ?_, ?_⟩
  · intro hdin
    have hbl2 : (runOps mgr0 (l1 ++ [Op.destroy d])).next_id +
        numCreates l2 < 2 ^ 32 := by
      rw [hBnext]
      omega
    have := createdIds_bounds l2 _ hbl2 d hdin
    rw [hBnext] at this
    omega
  · have hsplit : l1 ++ Op.destroy d :: l2 =
        (l1 ++ [Op.destroy d]) ++ l2 := by
      simp
    rw [TerminalManager.get, hsplit, runOps_append]
    refine runOps_lookup_none l2 _ d ?_ ?_ ?_
    · rw [hBnext]
      omega
    · rw [hBnext]
      omega
    · rw [hBrun]
      show lookupKey d (eraseKey d (runOps mgr0 l1).terminals) = none
      exact lookupKey_eraseKey_self _ _

/-- Witness for the amended C4 at a concrete trace. -/
theorem C4_witness :
    numCreates ([mkCreate true] ++ Op.destroy 1 :: [mkCreate true]) ≤
      2 ^ 32 - 2 ∧
    1 ∈ createdIds mgr0 [mkCreate true] ∧
    (createdIds mgr0
      ([mkCreate true] ++ Op.destroy 1 :: [mkCreate true])).Pairwise
        (· < ·) ∧
    1 ∉ createdIds (runOps mgr0 ([mkCreate true] ++ [Op.destroy 1]))
        [mkCreate true] ∧
    (runOps mgr0 ([mkCreate true] ++ Op.destroy 1 :: [mkCreate true])).get
        1 = none :=
  ⟨by decide, by decide,
   (C4_no_reuse_below_wrap [mkCreate true] [mkCreate true] 1 (by decide)
     (by decide)).1,
   (C4_no_reuse_below_wrap [mkCreate true] [mkCreate true] 1 (by decide)
     (by decide)).2.1,
   (C4_no_reuse_below_wrap [mkCreate true] [mkCreate true] 1 (by decide)
     (by decide)).2.2⟩

/-! ## Claim C9 — failed creates still consume an id -/

/-- C9 counterexample: after one successful create (id 1) and
`2^32 - 1` failed creates the `u32` counter has wrapped back to 1, so
the next successful create returns 1 again: the successful ids are
`[1, 1]`, not strictly increasing. -/
theorem C9_counterexample :
    createdIds mgr0 (mkCreate true ::
      (List.replicate (2 ^ 32 - 1) (mkCreate false) ++ [mkCreate true])) =
      [1, 1] ∧
    ¬ (createdIds mgr0 (mkCreate true ::
      (List.replicate (2 ^ 32 - 1) (mkCreate false) ++
        [mkCreate true]))).Pairwise (· < ·) := by
  have h1 : createdIds mgr0 (mkCreate true ::
      (List.replicate (2 ^ 32 - 1) (mkCreate false) ++ [mkCreate true])) =
      [1, 1] := by
    rw [show (mkCreate true ::
        (List.replicate (2 ^ 32 - 1) (mkCreate false) ++ [mkCreate true])) =
      (Op.create 80 24 .Window none true ::
        (List.replicate (2 ^ 32 - 1) (mkCreate false) ++ [mkCreate true]))
      from rfl]
    rw [createdIds_cons_true, createdIds_append, createdIds_replicate_fail,
      List.nil_append, createdIds_one_true]
    have hm1 : (mgr0.create 80 24 TerminalMode.Window none true).2.next_id =
        2 := rfl
    rw [runOps_replicate_fail_next_id _ _ (by rw [hm1]; norm_num), hm1]
    have : (2 + (2 ^ 32 - 1)) % 2 ^ 32 = 1 := by norm_num
    rw [this]
    rfl
  exact ⟨h1, by rw [h1]; decide⟩

/-- C9 (amended): every `create` call — successful or failed — advances
the internal id counter by exactly one (as a `u32`, i.e. modulo
`2^32`) before session construction is attempted, so a failed create
still consumes an id; below the counter wrap (at most `2^32 - 2` create
calls) the ids of the successful creates remain strictly increasing,
and they need not be consecutive when failed attempts intervene (a
success/failure/success trace yields ids `[1, 3]`). -/
theorem C9_failed_create_consumes_id (m : TerminalManager) (c r : Nat)
    (md : TerminalMode) (sh : Option (List Char)) (ops : List Op)
    (hb : numCreates ops ≤ 2 ^ 32 - 2) :
    (m.create c r md sh false).1 = none ∧
    (m.create c r md sh false).2.next_id = (m.next_id + 1) % 2 ^ 32 ∧
    (m.create c r md sh true).2.next_id = (m.next_id + 1) % 2 ^ 32 ∧
    (createdIds mgr0 ops).Pairwise (· < ·) ∧
    createdIds mgr0 [mkCreate true, mkCreate false, mkCreate true] =
      [1, 3] := by
  refine ⟨?_, create_next_id _ _ _ _ _ _, create_next_id _ _ _ _ _ _,
    ?_, rfl⟩
  · rw [create_fst]
    rfl
  · refine createdIds_pairwise _ _ ?_
    show 1 + numCreates ops < 2 ^ 32
    omega

/-- Witness for the amended C9 at concrete inputs. -/
theorem C9_witness :
    numCreates [mkCreate true, mkCreate false] ≤ 2 ^ 32 - 2 ∧
    (mgr0.create 80 24 .Window none false).1 = none ∧
    (createdIds mgr0 [mkCreate true, mkCreate false]).Pairwise (· < ·) :=
  ⟨by decide,
   (C9_failed_create_consumes_id mgr0 80 24 .Window none
     [mkCreate true, mkCreate false] (by decide)).1,
   (C9_failed_create_consumes_id mgr0 80 24 .Window none
     [mkCreate true, mkCreate false] (by decide)).2.2.2.1⟩

end Neomacs

namespace Neomacs

/-! ## Text-pipeline lemmas (for C6 and C10) -/

theorem dropWhile_head_not {α} (p : α → Bool) (l : List α) {a : α}
    {as : List α} (h : l.dropWhile p = a :: as) : p a = false := by
  induction l with
  | nil => simp at h
  | cons x xs ih =>
    rw [List.dropWhile_cons] at h
    by_cases hx : p x
    · rw [if_pos hx] at h
      exact ih h
    · rw [if_neg hx] at h
      injection h with h1 h2
      subst h1
      simpa using hx

theorem dropWhile_idem {α} (p : α → Bool) (l : List α) :
    (l.dropWhile p).dropWhile p = l.dropWhile p := by
  cases h : l.dropWhile p with
  | nil => rfl
  | cons a as =>
    rw [List.dropWhile_cons, if_neg (by simp [dropWhile_head_not p l h])]

theorem trimEnd_trimEnd (l : List Char) : trimEnd (trimEnd l) = trimEnd l := by
  rw [trimEnd, trimEnd, List.reverse_reverse, dropWhile_idem]

theorem trimEnd_getLast_not_ws {l : List Char} {a : Char}
    (h : (trimEnd l).getLast? = some a) : isRustWhitespace a = false := by
  rw [trimEnd, List.getLast?_reverse] at h
  cases hd : l.reverse.dropWhile isRustWhitespace with
  | nil => rw [hd] at h; simp at h
  | cons x xs =>
    rw [hd] at h
    simp only [List.head?_cons, Option.some.injEq] at h
    subst h
    exact dropWhile_head_not _ _ hd

theorem mem_trimEnd_mem {l : List Char} {a : Char} (h : a ∈ trimEnd l) :
    a ∈ l := by
  rw [trimEnd, List.mem_reverse] at h
  have := (List.dropWhile_sublist isRustWhitespace).mem h
  exact List.mem_reverse.1 this

theorem stripCr_eq_self {l : List Char} (h : '\x0d' ∉ l) :
    stripCr l = l := by
  rw [stripCr, if_neg]
  intro heq
  exact h (List.mem_of_getLast?_eq_some heq)

theorem stripCr_trimEnd (q : List Char) : stripCr (trimEnd q) = trimEnd q := by
  rw [stripCr]
  by_cases hc : (trimEnd q).getLast? = some '\x0d'
  · have := trimEnd_getLast_not_ws hc
    exact absurd this (by decide)
  · rw [if_neg hc]

theorem splitOnP_forall_not {α} (p : α → Bool) (xs : List α) :
    ∀ l ∈ xs.splitOnP p, ∀ a ∈ l, p a = false := by
  induction xs with
  | nil =>
    intro l hl
    rw [List.splitOnP_nil, List.mem_singleton] at hl
    subst hl
    simp
  | cons x xs ih =>
    intro l hl
    rw [List.splitOnP_cons] at hl
    by_cases hx : p x
    · rw [if_pos hx] at hl
      rcases List.mem_cons.1 hl with rfl | hl'
      · simp
      · exact ih l hl'
    · rw [if_neg hx] at hl
      cases hsp : xs.splitOnP p with
      | nil => exact absurd hsp (List.splitOnP_ne_nil p xs)
      | cons hd tl =>
        rw [hsp, List.modifyHead_cons] at hl
        rcases List.mem_cons.1 hl with rfl | hl'
        · intro a ha
          rcases List.mem_cons.1 ha with rfl | ha'
          · simpa using hx
          · exact ih hd (by rw [hsp]; exact List.mem_cons_self _ _) a ha'
        · exact ih l (by rw [hsp]; exact List.mem_cons_of_mem _ hl')

theorem mem_splitOn_not_mem {s : List Char} {x : Char} :
    ∀ l ∈ s.splitOn x, x ∉ l := by
  intro l hl hmem
  have := splitOnP_forall_not (· == x) s l hl x hmem
  simp at this

theorem intercalate_one {α} (sep : List α) (a : List α) :
    List.intercalate sep [a] = a := by
  simp [List.intercalate]

theorem intercalate_cons₂ {α} (sep : List α) (a b : List α)
    (l : List (List α)) :
    List.intercalate sep (a :: b :: l) =
      a ++ sep ++ List.intercalate sep (b :: l) := by
  simp only [List.intercalate, List.intersperse_cons_cons,
    List.flatten_cons, List.append_assoc]

end Neomacs

namespace Neomacs

theorem flatMap_sep_eq_intercalate (f : Nat → List Char) (sep : List Char)
    (er : Nat) :
    ∀ (n sr : Nat), sr + n = er →
      (List.range' sr (n + 1)).flatMap
          (fun row => f row ++ if row < er then sep else []) =
        List.intercalate sep ((List.range' sr (n + 1)).map f) := by
  intro n
  induction n with
  | zero =>
    intro sr h
    rw [List.range'_succ]
    simp only [List.range'_zero, List.flatMap_cons, List.flatMap_nil,
      List.map_cons, List.map_nil]
    rw [if_neg (by omega), intercalate_one]
    simp
  | succ n ih =>
    intro sr h
    rw [List.range'_succ, List.flatMap_cons, List.map_cons]
    rw [ih (sr + 1) (by omega)]
    rw [List.range'_succ, List.map_cons, intercalate_cons₂]
    rw [if_pos (show sr < er by omega)]

theorem rowChars_mem_char {t : TermM} {sr sc er ec row : Nat} {a : Char}
    (h : a ∈ rowChars t sr sc er ec row) :
    ∃ li co, a = (t.cell li co).c := by
  rw [rowChars] at h
  obtain ⟨col, hcol, hmem⟩ := List.mem_flatMap.1 h
  by_cases hg : textGuard t row col
  · rw [if_pos hg] at hmem
    by_cases hsp : (t.cell (toI32 row) col).flags.wideCharSpacer
    · rw [if_pos hsp] at hmem
      simp at hmem
    · rw [if_neg hsp, List.mem_singleton] at hmem
      exact ⟨toI32 row, col, hmem⟩
  · rw [if_neg hg] at hmem
    simp at hmem

theorem rawText_eq_intercalate (t : TermM) (sr sc er ec : Nat)
    (hsr : sr ≤ er) :
    rawText t sr sc er ec =
      List.intercalate ['\x0a']
        ((rowListIdx sr er).map (rowChars t sr sc er ec)) := by
  rw [rawText, rowListIdx, show er + 1 - sr = (er - sr) + 1 from by omega]
  exact flatMap_sep_eq_intercalate _ _ er (er - sr) sr (by omega)

theorem rustLines_rawText (t : TermM) (sr sc er ec : Nat) (hsr : sr ≤ er)
    (hch : ∀ li co, (t.cell li co).c ≠ '\x0a' ∧ (t.cell li co).c ≠ '\x0d')
    (hne : rowChars t sr sc er ec er ≠ []) :
    rustLines (rawText t sr sc er ec) =
      (rowListIdx sr er).map (rowChars t sr sc er ec) := by
  rw [rawText_eq_intercalate t sr sc er ec hsr, rustLines]
  have hpieces : ∀ l ∈ (rowListIdx sr er).map (rowChars t sr sc er ec),
      '\x0a' ∉ l := by
    intro l hl hmem
    obtain ⟨row, hrow, rfl⟩ := List.mem_map.1 hl
    obtain ⟨li, co, he⟩ := rowChars_mem_char hmem
    exact (hch li co).1 he.symm
  have hcr : ∀ l ∈ (rowListIdx sr er).map (rowChars t sr sc er ec),
      '\x0d' ∉ l := by
    intro l hl hmem
    obtain ⟨row, hrow, rfl⟩ := List.mem_map.1 hl
    obtain ⟨li, co, he⟩ := rowChars_mem_char hmem
    exact (hch li co).2 he.symm
  have hnonempty : (rowListIdx sr er).map (rowChars t sr sc er ec) ≠ [] := by
    rw [rowListIdx]
    simp only [ne_eq, List.map_eq_nil_iff, List.range'_eq_nil]
    omega
  rw [List.splitOn_intercalate _ '\x0a' hpieces hnonempty]
  have hlast : ((rowListIdx sr er).map
      (rowChars t sr sc er ec)).getLast? =
      some (rowChars t sr sc er ec er) := by
    have harg : sr + (er + 1 - sr) - 1 = er := by omega
    rw [List.getLast?_map, rowListIdx, List.getLast?_range',
      if_neg (by omega), Option.map_some', harg]
  rw [dropFinalEmpty, if_neg (by rw [hlast]; simpa using hne)]
  rw [List.map_congr_left (fun q hq => stripCr_eq_self (hcr q hq))]
  simp

end Neomacs

namespace Neomacs

theorem mem_stripCr_mem {l : List Char} {a : Char} (h : a ∈ stripCr l) :
    a ∈ l := by
  rw [stripCr] at h
  split at h
  · exact (List.dropLast_sublist l).mem h
  · exact h

theorem mem_dropFinalEmpty {ls : List (List Char)} {l : List Char}
    (h : l ∈ dropFinalEmpty ls) : l ∈ ls := by
  rw [dropFinalEmpty] at h
  split at h
  · exact (List.dropLast_sublist ls).mem h
  · exact h

theorem rustLines_no_nl {s : List Char} {l : List Char}
    (h : l ∈ rustLines s) : '\x0a' ∉ l := by
  rw [rustLines] at h
  obtain ⟨q, hq, rfl⟩ := List.mem_map.1 h
  intro hmem
  exact mem_splitOn_not_mem q (mem_dropFinalEmpty hq) (mem_stripCr_mem hmem)

theorem result_lines_trimmed (raw : List Char) :
    ∀ l ∈ rustLines
      (List.intercalate ['\x0a'] ((rustLines raw).map trimEnd)),
      trimEnd l = l := by
  intro l hl
  by_cases hp : (rustLines raw).map trimEnd = []
  · rw [hp, show List.intercalate ['\x0a'] ([] : List (List Char)) = []
      from rfl, show rustLines [] = [] from rfl] at hl
    simp at hl
  · have hfree : ∀ q ∈ (rustLines raw).map trimEnd, '\x0a' ∉ q := by
      intro q hq hmem
      obtain ⟨q0, hq0, rfl⟩ := List.mem_map.1 hq
      exact rustLines_no_nl hq0 (mem_trimEnd_mem hmem)
    rw [rustLines, List.splitOn_intercalate _ '\x0a' hfree hp] at hl
    obtain ⟨q, hq, rfl⟩ := List.mem_map.1 hl
    obtain ⟨q0, hq0, rfl⟩ := List.mem_map.1 (mem_dropFinalEmpty hq)
    rw [stripCr_trimEnd, trimEnd_trimEnd]

end Neomacs

namespace Neomacs

/-! ## Claim C6 — get_text trims trailing whitespace per line -/

/-- C6: every line of the string `get_text` returns carries no trailing
whitespace (first conjunct, for all region arguments and grids); and for
a region `sr ≤ er` over a grid whose cells hold no `'\n'`/`'\r'` (true
of any real terminal grid) with a nonempty raw last row, the result is
exactly the rows' raw character sequences — leading and interior
spacing untouched — each with trailing whitespace removed, joined by a
single newline. -/
theorem C6_get_text_trims_per_line (v : TerminalView) (sr sc er ec : Nat) :
    (∀ l ∈ rustLines (v.get_text sr sc er ec), trimEnd l = l) ∧
    (sr ≤ er →
      (∀ li co, (v.term.cell li co).c ≠ '\x0a' ∧
        (v.term.cell li co).c ≠ '\x0d') →
      rowChars v.term sr sc er ec er ≠ [] →
      v.get_text sr sc er ec =
        List.intercalate ['\x0a']
          ((rowListIdx sr er).map fun row =>
            trimEnd (rowChars v.term sr sc er ec row))) := by
  constructor
  · intro l hl
    exact result_lines_trimmed (rawText v.term sr sc er ec) l hl
  · intro hsr hch hne
    show extract_text v.term sr sc er ec = _
    rw [extract_text, rustLines_rawText v.term sr sc er ec hsr hch hne,
      List.map_map]
    rfl

/-- Witness for C6 on the concrete 2×5 grid `"ab   " / " c d "`:
the extracted region `(0,0)-(1,4)` is `"ab\n c d"`. -/
theorem C6_witness :
    ((0 : Nat) ≤ 1 ∧
     (∀ li co, (sampleView2.term.cell li co).c ≠ '\x0a' ∧
       (sampleView2.term.cell li co).c ≠ '\x0d') ∧
     rowChars sampleView2.term 0 0 1 4 1 ≠ []) ∧
    sampleView2.get_text 0 0 1 4 =
      List.intercalate ['\x0a']
        ((rowListIdx 0 1).map fun row =>
          trimEnd (rowChars sampleView2.term 0 0 1 4 row)) ∧
    sampleView2.get_text 0 0 1 4 = ['a', 'b', '\x0a', ' ', 'c', ' ', 'd'] := by
  have hch : ∀ li co, (sampleView2.term.cell li co).c ≠ '\x0a' ∧
      (sampleView2.term.cell li co).c ≠ '\x0d' := by
    intro li co
    show (sampleTerm2.cell li co).c ≠ '\x0a' ∧
      (sampleTerm2.cell li co).c ≠ '\x0d'
    rw [sampleTerm2]
    dsimp only
    constructor <;> (split_ifs <;> decide)
  refine ⟨⟨by decide, hch, by decide⟩, ?_, by decide⟩
  exact (C6_get_text_trims_per_line sampleView2 0 0 1 4).2 (by decide) hch
    (by decide)

end Neomacs

namespace Neomacs

/-! ## Checked extraction lemmas (for C10) -/

theorem toI32_le (n : Nat) : toI32 n ≤ (n : Int) := by
  simp only [toI32]
  have hm : ((n % 2 ^ 32 : Nat) : Int) ≤ (n : Int) :=
    Int.ofNat_le.2 (Nat.mod_le n _)
  split
  · exact hm
  · omega

theorem cellAt_of_guard {t : TermM} {row col : Nat} (h31 : row < 2 ^ 31)
    (hg : textGuard t row col) :
    cellAt t (toI32 row) col = some (t.cell (toI32 row) col) := by
  obtain ⟨hlt, hcol⟩ := hg
  rw [toI32_of_lt h31] at hlt ⊢
  rw [cellAt, if_pos]
  exact ⟨Int.natCast_nonneg row, lt_of_lt_of_le hlt (toI32_le t.rows), hcol⟩

theorem mapM_option_eq_some {α β} (f : α → Option β) (g : α → β)
    (l : List α) (h : ∀ a ∈ l, f a = some (g a)) :
    l.mapM f = some (l.map g) := by
  induction l with
  | nil => rfl
  | cons a rest ih =>
    rw [List.mapM_cons, h a (List.mem_cons_self a rest),
      ih (fun b hb => h b (List.mem_cons_of_mem _ hb))]
    rfl

theorem rowCharsChecked_eq (t : TermM) (sr sc er ec row : Nat)
    (h31 : row < 2 ^ 31) :
    rowCharsChecked t sr sc er ec row =
      some (rowChars t sr sc er ec row) := by
  rw [rowCharsChecked, rowChars,
    mapM_option_eq_some _
      (fun col =>
        if textGuard t row col then
          if (t.cell (toI32 row) col).flags.wideCharSpacer then []
          else [(t.cell (toI32 row) col).c]
        else []) _ ?_]
  · simp only [Option.map_some', List.flatMap_def]
  · intro col hcol
    dsimp only
    by_cases hg : textGuard t row col
    · rw [if_pos hg, if_pos hg, cellAt_of_guard h31 hg]
      rfl
    · rw [if_neg hg, if_neg hg]

theorem extract_text_checked_eq (t : TermM) (sr sc er ec : Nat)
    (her : er < 2 ^ 31) :
    extract_text_checked t sr sc er ec =
      some (extract_text t sr sc er ec) := by
  have hraw : rawTextChecked t sr sc er ec =
      some (rawText t sr sc er ec) := by
    rw [rawTextChecked, rawText,
      mapM_option_eq_some _
        (fun row => rowChars t sr sc er ec row ++
          if row < er then ['\x0a'] else []) _ ?_]
    · simp only [Option.map_some', List.flatMap_def]
    · intro row hrow
      dsimp only
      have h31 : row < 2 ^ 31 := by
        rw [rowListIdx] at hrow
        have := List.mem_range'_1.1 hrow
        omega
      rw [rowCharsChecked_eq t sr sc er ec row h31]
      rfl
  rw [extract_text_checked, hraw]
  rfl

theorem extract_text_empty_region (t : TermM) (sr sc er ec : Nat)
    (h : er < sr) : extract_text t sr sc er ec = [] := by
  have h0 : er + 1 - sr = 0 := by omega
  rw [extract_text, rawText, rowListIdx, h0]
  rfl

theorem extract_text_congr (t t' : TermM) (sr sc er ec : Nat)
    (her : er < 2 ^ 31)
    (hcols : t.cols = t'.cols) (hrows : t.rows = t'.rows)
    (hcell : ∀ (l : Int) (c : Nat), 0 ≤ l → l < (t.rows : Int) →
      c < t.cols → t.cell l c = t'.cell l c) :
    extract_text t sr sc er ec = extract_text t' sr sc er ec := by
  have hrowc : ∀ row ∈ rowListIdx sr er,
      rowChars t sr sc er ec row = rowChars t' sr sc er ec row := by
    intro row hrowm
    have h31 : row < 2 ^ 31 := by
      rw [rowListIdx] at hrowm
      have := List.mem_range'_1.1 hrowm
      omega
    rw [rowChars, rowChars, ← hcols, List.flatMap_def, List.flatMap_def]
    congr 1
    refine List.map_congr_left ?_
    intro col hcol
    by_cases hg : textGuard t row col
    · have hg' : textGuard t' row col := by
        rw [textGuard, ← hcols, ← hrows]
        exact hg
      have hacc : t.cell (toI32 row) col = t'.cell (toI32 row) col := by
        obtain ⟨hlt, hc⟩ := hg
        refine hcell (toI32 row) col ?_ ?_ hc
        · rw [toI32_of_lt h31]
          exact Int.natCast_nonneg row
        · exact lt_of_lt_of_le hlt (toI32_le t.rows)
      rw [if_pos hg, if_pos hg', hacc]
    · have hg' : ¬ textGuard t' row col := by
        rw [textGuard, ← hcols, ← hrows]
        exact hg
      rw [if_neg hg, if_neg hg']
  have hraw : rawText t sr sc er ec = rawText t' sr sc er ec := by
    rw [rawText, rawText, List.flatMap_def, List.flatMap_def]
    congr 1
    refine List.map_congr_left ?_
    intro row hrowm
    rw [hrowc row hrowm]
  rw [extract_text, extract_text, hraw]

end Neomacs

namespace Neomacs

/-! ## Claim C10 — region safety of get_text (corrected for the
`usize as i32` cast) -/

/-- C10 counterexample: `extract_text` builds `Line(row as i32)`; the
cast wraps, so on a 1×1 grid the region `(2^32, 0)-(2^32, 0)` — every
position of which lies outside the visible grid — still contributes the
character read at the wrapped line 0, and at `start_row = 2^31` the
wrapped line is negative, making the code index the grid outside the
visible rectangle (the access-checked extraction fails). -/
theorem C10_counterexample :
    sampleTerm1.rows ≤ 2 ^ 32 ∧
    extract_text sampleTerm1 (2 ^ 32) 0 (2 ^ 32) 0 = ['x'] ∧
    extract_text_checked sampleTerm1 (2 ^ 31) 0 (2 ^ 31) 0 = none := by
  refine ⟨by norm_num [sampleTerm1], ?_, ?_⟩
  · decide
  · decide

/-- C10 (amended): for every region whose `end_row` is below `2^31`
(so the `usize as i32` cast preserves the iterated rows), `get_text`
never indexes the grid outside the visible rectangle and never fails
(the access-checked extraction succeeds and agrees with the plain one),
an empty region (`end_row < start_row`) yields the empty string, and
cells outside the visible grid never influence the result. -/
theorem C10_safe_region_extraction (t t' : TermM) (sr sc er ec : Nat)
    (her : er < 2 ^ 31) :
    extract_text_checked t sr sc er ec =
      some (extract_text t sr sc er ec) ∧
    (er < sr → extract_text t sr sc er ec = []) ∧
    (t.cols = t'.cols → t.rows = t'.rows →
      (∀ (l : Int) (c : Nat), 0 ≤ l → l < (t.rows : Int) → c < t.cols →
        t.cell l c = t'.cell l c) →
      extract_text t sr sc er ec = extract_text t' sr sc er ec) :=
  ⟨extract_text_checked_eq t sr sc er ec her,
   extract_text_empty_region t sr sc er ec,
   fun h1 h2 h3 => extract_text_congr t t' sr sc er ec her h1 h2 h3⟩

/-- Witness for the amended C10 on concrete grids: the checked
extraction succeeds on `sampleTerm2`, and an empty region yields the
empty string. -/
theorem C10_witness :
    (4 : Nat) < 2 ^ 31 ∧
    extract_text_checked sampleTerm2 0 0 1 4 =
      some (extract_text sampleTerm2 0 0 1 4) ∧
    ((1 : Nat) < 3 → extract_text sampleTerm2 3 0 1 4 = []) :=
  ⟨by norm_num,
   (C10_safe_region_extraction sampleTerm2 sampleTerm2 0 0 1 4
     (by norm_num)).1,
   (C10_safe_region_extraction sampleTerm2 sampleTerm2 3 0 1 4
     (by norm_num)).2.1⟩

end Neomacs
